import Mathlib

/-!
# Verification of the TrendForge trend-service scoring and clustering core

This file gives a shallow embedding, in Lean 4, of the scoring-and-clustering
engine of the trend service:

* the tie-aware mid-rank percentile routine `assignPercentilesDesc` and the
  comparable scoring of `scoreItemsComparable` (editorial/buildEditorial.js,
  scoring section);
* the platform raw scorer `rawScoreItem` for video items and the YouTube
  collector's metric construction (youtubeCollector.js);
* the greedy Jaccard clusterer, keyword extraction, confirmation score,
  saturation penalty and topic score of `buildTrendTopics`
  (topics/buildTrendTopics.js).

JavaScript numbers are modelled as exact rationals (`ℚ`) where the code only
performs field operations and comparisons, and as reals (`ℝ`) where the code
uses `Math.log1p` / `Math.exp`.  JavaScript's built-in stable `Array.sort`
is modelled by the stable `List.insertionSort`; a stable sort's output is
determined uniquely by the comparator, so this is semantics-preserving.
-/

namespace TrendForge

/-! ## Rational clamp (clamp01 from topics/buildTrendTopics.js, used on
exactly-representable values) -/

/-- `clamp01(x) = Math.max(0, Math.min(1, x))`, on exact rationals. -/
def clamp01Q (x : ℚ) : ℚ := max 0 (min 1 x)

/-! ## Tie-aware mid-rank percentile (assignPercentilesDesc,
editorial/buildEditorial.js lines 417-440)

The JavaScript routine sorts the group descending by raw score, then walks
maximal blocks of equal scores `[i, j)` assigning each the percentile
`1 - ((i + (j-1))/2) / (n-1)`; a singleton group (`n === 1`) gets `1`.

The walk is embedded as `pctLoop`, structurally recursive on a fuel argument
(always called with `fuel = length`, an upper bound on the number of loop
iterations, so the semantics coincide with the source's `while` loop). -/

/-- The mid-rank percentile of the block at sorted positions `[i, j)` in a
group of `n` items: `1 - ((i + (j-1))/2) / (n-1)`. -/
def midPct (n i j : ℕ) : ℚ := 1 - (((i : ℚ) + ((j : ℚ) - 1)) / 2) / ((n : ℚ) - 1)

/-- The block-walking loop of `assignPercentilesDesc`: on the descending
sorted list, find the maximal block of scores equal to the head, assign all
of them the mid-rank percentile of positions `[i, j)`, continue at `j`. -/
def pctLoop (n : ℕ) : ℕ → ℕ → List ℚ → List (ℚ × ℚ)
  | 0, _, _ => []
  | _ + 1, _, [] => []
  | fuel + 1, i, s :: rest =>
    let tied := rest.takeWhile (fun t => decide (t = s))
    let j := i + 1 + tied.length
    (s :: tied).map (fun t => (t, midPct n i j))
      ++ pctLoop n fuel j (rest.dropWhile (fun t => decide (t = s)))

/-- `assignPercentilesDesc` on the multiset of raw scores of one platform
group: sort descending (`arr.sort((a,b) => b - a)`), special-case `n === 1`
to percentile `1`, otherwise run the tie-block walk.  The result pairs each
score with its assigned `_platformPercentile`. -/
def assignPercentilesDesc (scores : List ℚ) : List (ℚ × ℚ) :=
  let sorted := List.insertionSort (fun a b => b ≤ a) scores
  if sorted.length = 1 then sorted.map (fun s => (s, 1))
  else pctLoop sorted.length sorted.length 0 sorted

instance : IsTotal ℚ (fun a b => b ≤ a) := ⟨fun a b => le_total b a⟩

instance : IsTrans ℚ (fun a b => b ≤ a) := ⟨fun _ _ _ h1 h2 => le_trans h2 h1⟩

/-- Number of entries of `l` strictly greater than `s`: the sorted-descending
rank `i` at which the tie block of `s` starts. -/
def countGT (l : List ℚ) (s : ℚ) : ℕ := l.countP (fun t => decide (s < t))

/-- Number of entries of `l` greater than or equal to `s`: the sorted-descending
rank `j` at which the tie block of `s` ends. -/
def countGE (l : List ℚ) (s : ℚ) : ℕ := l.countP (fun t => decide (s ≤ t))

/-! ## Real-valued scoring formulas

`Math.log1p`, `Math.exp` and the blended scores are transcendental, so these
parts are embedded over `ℝ` with `Real.log` / `Real.exp`
(`log1p x = Real.log (1 + x)`). -/

/-- `clamp01` from scoring/score.js and buildTrendTopics.js, over `ℝ`. -/
noncomputable def clamp01R (x : ℝ) : ℝ := max 0 (min 1 x)

/-- `freshness01(publishedAt, halfLifeHours, maxHours)`: an unparseable or
missing `publishedAt` (modelled as `none`) gives 0; non-positive age gives 1;
age at or beyond the hard cutoff gives 0; otherwise exponential decay
`exp(-ln 2 * age/halfLife)` clamped to `[0,1]`.  The age in hours
`(Date.now() - ts) / 36e5` is taken as the input. -/
noncomputable def freshness01R (ageHrs : Option ℝ) (halfLifeHours maxHours : ℝ) : ℝ :=
  match ageHrs with
  | none => 0
  | some a =>
    if a ≤ 0 then 1
    else if maxHours ≤ a then 0
    else clamp01R (Real.exp (-Real.log 2 * (a / halfLifeHours)))

/-- The log-compression `clamp01(Math.log1p(x) / Math.log1p(cap))` used
throughout the raw scorer and topic aggregator. -/
noncomputable def logComp (x cap : ℝ) : ℝ :=
  clamp01R (Real.log (1 + x) / Real.log (1 + cap))

/-- The metric fields of a YouTube item read by `rawScoreItem`
(scoring/score.js): `metrics.velocity`, `metrics.views`, `metrics.likes`,
`metrics.comments`. -/
structure YtMetrics where
  views : ℝ
  likes : ℝ
  comments : ℝ
  velocity : ℝ

/-- The `metrics` object attached to each item by `fetchYouTubeItems`
(youtubeCollector.js lines 201-208): note `velocity: likes + comments`
(a placeholder), not a views-per-hour quantity. -/
noncomputable def collectorMetrics (views likes comments : ℝ) : YtMetrics :=
  { views := views, likes := likes, comments := comments,
    velocity := likes + comments }

/-- `rawScoreItem` for `platform === "youtube"` (scoring/score.js lines
373-394): `0.55·logComp(velocity, 5e4) + 0.30·logComp(likes + 2·comments,
2e5) + 0.15·logComp(views, 5e6)`, blended 85/15 with the 24h/72h freshness
factor, clamped to `[0,1]`. -/
noncomputable def rawScoreYoutube (ageHrs : Option ℝ) (m : YtMetrics) : ℝ :=
  clamp01R (0.85 * (0.55 * logComp m.velocity 50000
      + 0.30 * logComp (m.likes + 2 * m.comments) 200000
      + 0.15 * logComp m.views 5000000)
    + 0.15 * freshness01R ageHrs 24 72)

/-- The video raw score as the spec's words describe it — a second definition
kept solely for comparison with `rawScoreYoutube`: identical except that the
view-velocity term is computed as `views / max(1, ageHours)` as claimed,
rather than from the collector's `velocity` metric. -/
noncomputable def specRawScoreVideo (ageHrs : Option ℝ)
    (ageHoursMetric views likes comments : ℝ) : ℝ :=
  clamp01R (0.85 * (0.55 * logComp (views / max 1 ageHoursMetric) 50000
      + 0.30 * logComp (likes + 2 * comments) 200000
      + 0.15 * logComp views 5000000)
    + 0.15 * freshness01R ageHrs 24 72)

/-- The final comparable score of `scoreItemsComparable`
(editorial/buildEditorial.js lines 465-477): percentile, freshness and the
external google-trends signal (itself clamped) are blended, clamped, scaled
by 1000 and rounded (`Math.round` rounds half towards `+∞`, as does Mathlib's
`round`). -/
noncomputable def trendScoreOf (pct f gt : ℝ) : ℤ :=
  round (clamp01R (0.60 * pct + 0.25 * f + 0.15 * clamp01R gt) * 1000)

/-- The final topic score of `buildTrendTopics` (lines 249-256): the weighted
blend (whose pre-clamp value can be negative) clamped to `[0,1]`, scaled by
1000 and rounded. -/
noncomputable def topicScoreOf
    (youtubeStrength newsStrength freshnessScore confirmationScore
      saturationPenalty : ℝ) : ℤ :=
  round (1000 * clamp01R (0.40 * youtubeStrength + 0.25 * newsStrength
    + 0.20 * freshnessScore + 0.15 * confirmationScore
    - 0.25 * saturationPenalty))

/-- `saturationPenalty = clamp01(Math.log1p(saturation48h - 1) /
Math.log1p(20))` (buildTrendTopics.js line 227). -/
noncomputable def saturationPenaltyOf (saturation48h : ℝ) : ℝ :=
  clamp01R (Real.log (1 + (saturation48h - 1)) / Real.log (1 + 20))

/-! ## Keyword extraction (topKeywords, buildTrendTopics.js lines 60-68)

`topKeywords` counts token frequencies in a `Map` (which preserves
first-seen insertion order), sorts entries by count descending with the
stable built-in sort, takes the first `k` and returns their tokens.  A
stable sort's output is uniquely determined by the comparator, so the
stable `List.insertionSort` is a faithful model of `Array.sort`. -/

/-- One step of frequency counting: `freq.set(t, (freq.get(t) || 0) + 1)` on
an insertion-ordered association list. -/
def bumpFreq : List (String × ℕ) → String → List (String × ℕ)
  | [], t => [(t, 1)]
  | (x, c) :: rest, t =>
    if x = t then (x, c + 1) :: rest else (x, c) :: bumpFreq rest t

/-- The frequency map entries `[...freq.entries()]` in first-seen order. -/
def freqEntries (tokens : List String) : List (String × ℕ) :=
  tokens.foldl bumpFreq []

/-- `topKeywords(tokens, k)`: sort entries by count descending (stable),
take `k`, map to the token. -/
def topKeywords (tokens : List String) (k : ℕ) : List String :=
  ((List.insertionSort (fun a b : String × ℕ => b.2 ≤ a.2)
      (freqEntries tokens)).take k).map Prod.fst

/-! ## Greedy Jaccard clustering (buildTrendTopics.js lines 131-166) -/

/-- A normalized trend item as the clusterer sees it: its platform string and
the token list `extractTokens(topicTitle, topicSummary)` produces for it.
(The fields not read by the clustering and confirmation logic are omitted.) -/
structure TItem where
  platform : String
  tokens : List String
deriving DecidableEq

/-- A prepared item (lines 131-139): a shallow copy of the item together with
the derived `_keywords = topKeywords(tokens, 12)` and signature set
`_tokens = new Set(kw)`. -/
structure PItem where
  base : TItem
  keywords : List String
  sig : Finset String
deriving DecidableEq

/-- The preparation step for one item. -/
def prepareItem (it : TItem) : PItem :=
  { base := it, keywords := topKeywords it.tokens 12,
    sig := (topKeywords it.tokens 12).toFinset }

/-- A cluster: its ordered member items and its signature token set. -/
structure Cluster where
  items : List PItem
  signature : Finset String
deriving DecidableEq

/-- `jaccard(aSet, bSet)` (lines 70-75): `|a ∩ b| / (|a| + |b| - |a ∩ b|)`,
with an empty union giving similarity 0. -/
def jaccard (aSet bSet : Finset String) : ℚ :=
  let inter := (aSet ∩ bSet).card
  let union := aSet.card + bSet.card - inter
  if union = 0 then 0 else (inter : ℚ) / (union : ℚ)

/-- The scan loop over existing clusters (lines 144-153): starting from
`bestIdx = -1, bestSim = 0`, remember index and similarity whenever the
current similarity strictly exceeds the best so far. -/
def scanBestAux (sig : Finset String) : List Cluster → ℕ → ℤ × ℚ → ℤ × ℚ
  | [], _, best => best
  | c :: cs, i, best =>
    scanBestAux sig cs (i + 1)
      (if best.2 < jaccard sig c.signature
        then ((i : ℤ), jaccard sig c.signature) else best)

/-- The full scan from the loop's initial state. -/
def scanBest (sig : Finset String) (clusters : List Cluster) : ℤ × ℚ :=
  scanBestAux sig clusters 0 (-1, 0)

/-- In-place update of the cluster at one index (the mutation
`clusters[bestIdx].items.push(it)` / signature union). -/
def updateAt : ℕ → (Cluster → Cluster) → List Cluster → List Cluster
  | _, _, [] => []
  | 0, f, c :: cs => f c :: cs
  | n + 1, f, c :: cs => c :: updateAt n f cs

/-- Joining a cluster (lines 156-159): push the item and union its signature
into the cluster signature. -/
def joinCluster (it : PItem) (c : Cluster) : Cluster :=
  { items := c.items ++ [it], signature := c.signature ∪ it.sig }

/-- One iteration of the clustering loop (lines 143-166): join the best
cluster when `bestIdx >= 0 && bestSim >= similarityThreshold`, else start a
new singleton cluster. -/
def stepCluster (similarityThreshold : ℚ) (clusters : List Cluster)
    (it : PItem) : List Cluster :=
  let best := scanBest it.sig clusters
  if 0 ≤ best.1 ∧ similarityThreshold ≤ best.2 then
    updateAt best.1.toNat (joinCluster it) clusters
  else
    clusters ++ [{ items := [it], signature := it.sig }]

/-- The clustering pass over all prepared items, in input order. -/
def clusterFold (similarityThreshold : ℚ) (items : List PItem) : List Cluster :=
  items.foldl (stepCluster similarityThreshold) []

/-- Preparation followed by clustering: steps 1 and 2 of `buildTrendTopics`. -/
def clusterRun (similarityThreshold : ℚ) (items : List TItem) : List Cluster :=
  clusterFold similarityThreshold (items.map prepareItem)

/-- The highest Jaccard similarity between an item signature and the existing
clusters (0 when there are none) — the quantity claim C2 speaks about. -/
def maxSim (sig : Finset String) (clusters : List Cluster) : ℚ :=
  (clusters.map (fun c => jaccard sig c.signature)).foldl max 0

/-! ## Topic-level aggregation pieces used by the claims -/

/-- JS `toLowerCase()`, modelled character-wise on the string's character
list (equivalent for the ASCII platform names the service uses). -/
def toLowerStr (s : String) : String := ⟨s.data.map Char.toLower⟩

/-- JS `trim()`: drop leading and trailing whitespace, character-wise. -/
def trimStr (s : String) : String :=
  ⟨((s.data.dropWhile Char.isWhitespace).reverse.dropWhile
      Char.isWhitespace).reverse⟩

/-- `platformKey(p)` (buildTrendTopics.js lines 94-96):
`String(p || "unknown").toLowerCase().trim()`. -/
def platformKey (p : String) : String :=
  trimStr (toLowerStr (if p = "" then "unknown" else p))

/-- `confirmationScore` (lines 241-245): `0.5` if any member's platform key
is `"youtube"` plus `0.5` if any member's platform key is `"news"`, clamped.
The platform counts map of the source is modelled by `countP` over the
members. -/
def confirmationScoreOf (members : List PItem) : ℚ :=
  let hasYt :=
    0 < members.countP (fun it => platformKey it.base.platform == "youtube")
  let hasNews :=
    0 < members.countP (fun it => platformKey it.base.platform == "news")
  clamp01Q ((if hasYt then 1 / 2 else 0) + (if hasNews then 1 / 2 else 0))

/-- The number of distinct platform categories present among a cluster's
member items, as the words of claim C6 describe it — a second definition
kept solely for comparison with `confirmationScoreOf`. -/
def specDistinctPlatformCount (members : List PItem) : ℕ :=
  ((members.map (fun it => platformKey it.base.platform)).dedup).length

/-- `saturation48h = clusterSize` (line 223): the within-run saturation
proxy. -/
def saturation48hOf (c : Cluster) : ℕ := c.items.length

/-- The saturation penalty of a produced topic record (line 227). -/
noncomputable def saturationPenaltyRec (c : Cluster) : ℝ :=
  saturationPenaltyOf (saturation48hOf c)

/-! ## Input validation (buildTrendTopics.js lines 113-128)

JavaScript's falsiness test `!trendRunId` accepts `undefined`/`null`
(modelled `none`) and the empty string; a non-array `items` argument is
modelled as `none`. Throwing is modelled by `Except.error`. -/

/-- JavaScript falsiness of an optional string argument. -/
def jsFalsyStr : Option String → Bool
  | none => true
  | some s => s == ""

/-- `buildTrendTopics` entry: validation, preparation and clustering.  (The
per-cluster record construction is a pure map over the resulting clusters
and the final ordering/truncation `topicRecords.sort(...).slice(0, maxTopics)`
preserves emptiness and membership, so the cluster list stands for the
record list in the error-behaviour and per-record claims.) -/
def buildTrendTopicsE (trendRunId projectId : Option String)
    (items : Option (List TItem)) (similarityThreshold : ℚ) :
    Except String (List Cluster) :=
  if jsFalsyStr trendRunId then .error "buildTrendTopics: missing trendRunId"
  else if jsFalsyStr projectId then .error "buildTrendTopics: missing projectId"
  else
    match items with
    | none => .error "buildTrendTopics: items must be an array"
    | some its => .ok (clusterRun similarityThreshold its)

/-! ## Heap model for the frame property (claim C10)

`buildTrendTopics` receives references to item objects living on the JS
heap; the preparation step builds shallow copies `{...it, _tokens, _keywords}`
(fresh allocations) and every later step only reads.  The heap is modelled
as a list of objects indexed by address; allocation appends. -/

/-- A heap object: the item's own fields plus the optional derived
`_tokens`/`_keywords` slot (present only on the prepared copies). -/
structure HObj where
  platform : String
  tokens : List String
  derived : Option (List String)
deriving DecidableEq

/-- Default for out-of-range reads. -/
def defaultHObj : HObj := { platform := "", tokens := [], derived := none }

/-- The preparation of one item (lines 131-139): read the object at address
`a`, allocate a fresh copy carrying the derived keyword fields, and record
the fresh address.  The original object is not written. -/
def prepAlloc (st : List HObj × List ℕ) (a : ℕ) : List HObj × List ℕ :=
  let o := st.1.getD a defaultHObj
  (st.1 ++ [{ o with derived := some (topKeywords o.tokens 12) }],
    st.2 ++ [st.1.length])

/-- `items.map(...)` of the preparation step over the input addresses. -/
def prepareAllH (heap : List HObj) (itemAddrs : List ℕ) :
    List HObj × List ℕ :=
  itemAddrs.foldl prepAlloc (heap, [])

/-- Reading a prepared item object back from the heap. -/
def readPrepared (heap : List HObj) (a : ℕ) : PItem :=
  let o := heap.getD a defaultHObj
  { base := { platform := o.platform, tokens := o.tokens },
    keywords := o.derived.getD [],
    sig := (o.derived.getD []).toFinset }

/-- `buildTrendTopics` on the heap: prepare (allocating copies), then
cluster the prepared objects.  Clustering and aggregation only read the
heap. -/
def buildTrendTopicsH (similarityThreshold : ℚ) (heap : List HObj)
    (itemAddrs : List ℕ) : List HObj × List Cluster :=
  let prep := prepareAllH heap itemAddrs
  (prep.1, clusterFold similarityThreshold (prep.2.map (readPrepared prep.1)))

/-! ## Lemmas: the tie-aware percentile routine -/

/-- The block walk only relabels the sorted scores: its first components are
the input list. -/
lemma pctLoop_map_fst (n : ℕ) :
    ∀ (fuel i : ℕ) (l : List ℚ), l.length ≤ fuel →
      (pctLoop n fuel i l).map Prod.fst = l := by
  intro fuel
  induction fuel with
  | zero =>
    intro i l hl
    have hnil : l = [] := List.length_eq_zero.mp (Nat.le_zero.mp hl)
    subst hnil
    rfl
  | succ fuel ih =>
    intro i l hl
    match l with
    | [] => rfl
    | s :: rest =>
      have hlen : (rest.dropWhile (fun t => decide (t = s))).length ≤ fuel :=
        le_trans ((List.dropWhile_sublist _).length_le)
          (Nat.succ_le_succ_iff.mp hl)
      simp only [pctLoop, List.map_append, List.map_map]
      rw [ih _ _ hlen]
      have hfst : (Prod.fst ∘ fun t : ℚ =>
          (t, midPct n i (i + 1 + (rest.takeWhile fun t => decide (t = s)).length)))
            = id := rfl
      rw [hfst, List.map_id]
      simp [List.takeWhile_append_dropWhile]

/-- Membership in the walk's output projects to membership in the block. -/
lemma pctLoop_fst_mem {n fuel i : ℕ} {l : List ℚ} {s p : ℚ}
    (hl : l.length ≤ fuel) (h : (s, p) ∈ pctLoop n fuel i l) : s ∈ l := by
  have := List.mem_map_of_mem Prod.fst h
  rwa [pctLoop_map_fst n fuel i l hl] at this

/-- In a descending-sorted list, everything surviving the `dropWhile` that
skips the head's tie block is strictly below the head. -/
lemma dropWhile_lt_of_sorted (s : ℚ) :
    ∀ rest : List ℚ, List.Pairwise (fun a b : ℚ => b ≤ a) (s :: rest) →
      ∀ x ∈ rest.dropWhile (fun t => decide (t = s)), x < s := by
  intro rest
  induction rest with
  | nil => intro _ x hx; simp at hx
  | cons r rs ih =>
    intro hp x hx
    rcases List.pairwise_cons.mp hp with ⟨hs, hrs⟩
    rw [List.dropWhile_cons] at hx
    by_cases hr : r = s
    · rw [if_pos (by simpa using hr)] at hx
      refine ih ?_ x hx
      refine List.pairwise_cons.mpr ⟨?_, (List.pairwise_cons.mp hrs).2⟩
      intro y hy
      exact hs y (List.mem_cons_of_mem r hy)
    · rw [if_neg (by simpa using hr)] at hx
      have hrlt : r < s := lt_of_le_of_ne (hs r (List.mem_cons_self r rs)) hr
      rcases List.mem_cons.mp hx with rfl | hx
      · exact hrlt
      · exact lt_of_le_of_lt ((List.pairwise_cons.mp hrs).1 x hx) hrlt

/-- `countGE` splits as `countGT` plus the multiplicity of the score. -/
lemma countGE_eq_add (l : List ℚ) (s : ℚ) :
    countGE l s = countGT l s + l.count s := by
  induction l with
  | nil => rfl
  | cons t l ih =>
    simp only [countGE, countGT, List.countP_cons, List.count_cons] at *
    rcases lt_trichotomy s t with h | h | h
    · have h1 : decide (s ≤ t) = true := by simpa using le_of_lt h
      have h2 : decide (s < t) = true := by simpa using h
      have h3 : (t == s) = false := by simpa using (ne_of_gt h)
      rw [h1, h2, h3] at *
      simp at *
      omega
    · subst h
      simp at *
      omega
    · have h1 : decide (s ≤ t) = false := by simpa using not_le_of_lt h
      have h2 : decide (s < t) = false := by simpa using not_lt_of_lt h
      have h3 : (t == s) = false := by simpa using (ne_of_lt h)
      rw [h1, h2, h3] at *
      simp at *
      omega

/-- The mid-rank formula for every assigned pair, on a sorted block starting
at rank `i`: the tie block of `s` occupies ranks
`[i + countGT, i + countGE)`. -/
lemma pctLoop_pct (n : ℕ) :
    ∀ (fuel i : ℕ) (l : List ℚ), l.length ≤ fuel →
      List.Pairwise (fun a b : ℚ => b ≤ a) l →
      ∀ s p : ℚ, (s, p) ∈ pctLoop n fuel i l →
        p = midPct n (i + countGT l s) (i + countGE l s) := by
  intro fuel
  induction fuel with
  | zero =>
    intro i l hl _ s p hm
    have hnil : l = [] := List.length_eq_zero.mp (Nat.le_zero.mp hl)
    subst hnil
    simp [pctLoop] at hm
  | succ fuel ih =>
    intro i l hl hsort s p hm
    match l with
    | [] => simp [pctLoop] at hm
    | s0 :: rest =>
      have hrest : rest.length ≤ fuel := Nat.succ_le_succ_iff.mp hl
      have htied_eq : ∀ t ∈ rest.takeWhile (fun x => decide (x = s0)), t = s0 := by
        intro t ht
        simpa using List.mem_takeWhile_imp ht
      have hlt : ∀ x ∈ rest.dropWhile (fun t => decide (t = s0)), x < s0 :=
        dropWhile_lt_of_sorted s0 rest hsort
      have hsplit : (rest.takeWhile (fun t => decide (t = s0)))
          ++ rest.dropWhile (fun t => decide (t = s0)) = rest :=
        List.takeWhile_append_dropWhile _ _
      rcases List.pairwise_cons.mp hsort with ⟨hhead, htail⟩
      simp only [pctLoop, List.mem_append] at hm
      rcases hm with hm | hm
      · -- the head tie block
        rw [List.mem_map] at hm
        obtain ⟨t, ht, hts⟩ := hm
        obtain ⟨rfl, rfl⟩ : t = s ∧ midPct n i
            (i + 1 + (rest.takeWhile fun t => decide (t = s0)).length) = p := by
          constructor
          · exact (Prod.mk.injEq _ _ _ _).mp hts |>.1
          · exact (Prod.mk.injEq _ _ _ _).mp hts |>.2
        have hs0 : t = s0 := by
          rcases List.mem_cons.mp ht with rfl | ht
          · rfl
          · exact htied_eq t ht
        subst hs0
        have hGT : countGT (t :: rest) t = 0 := by
          refine List.countP_eq_zero.mpr ?_
          intro a ha
          rcases List.mem_cons.mp ha with rfl | ha
          · simp
          · simp only [decide_eq_true_eq]
            exact not_lt_of_le (hhead a ha)
        have hGE : countGE (t :: rest) t
            = 1 + (rest.takeWhile fun x => decide (x = t)).length := by
          have htake : List.countP (fun x => decide (t ≤ x))
              (rest.takeWhile fun x => decide (x = t))
                = (rest.takeWhile fun x => decide (x = t)).length := by
            refine List.countP_eq_length.mpr ?_
            intro a ha
            have := htied_eq a ha
            subst this
            simp
          have hdrop : List.countP (fun x => decide (t ≤ x))
              (rest.dropWhile fun x => decide (x = t)) = 0 := by
            refine List.countP_eq_zero.mpr ?_
            intro a ha
            simp only [decide_eq_true_eq]
            exact not_le_of_lt (hlt a ha)
          calc countGE (t :: rest) t
              = List.countP (fun x => decide (t ≤ x)) rest
                + (if decide (t ≤ t) = true then 1 else 0) := by
                simp [countGE, List.countP_cons]
            _ = List.countP (fun x => decide (t ≤ x)) rest + 1 := by simp
            _ = 1 + (rest.takeWhile fun x => decide (x = t)).length := by
                conv_lhs => rw [← hsplit]
                rw [List.countP_append, htake, hdrop]
                omega
        have e1 : i + countGT (t :: rest) t = i := by omega
        have e2 : i + countGE (t :: rest) t
            = i + 1 + (rest.takeWhile fun x => decide (x = t)).length := by omega
        rw [e1, e2]
      · -- the recursive tail
        have hlen2 : (rest.dropWhile (fun t => decide (t = s0))).length ≤ fuel :=
          le_trans ((List.dropWhile_sublist _).length_le) hrest
        have hsort2 : List.Pairwise (fun a b : ℚ => b ≤ a)
            (rest.dropWhile (fun t => decide (t = s0))) :=
          List.Pairwise.sublist (List.dropWhile_sublist _) htail
        have hrec := ih _ _ hlen2 hsort2 s p hm
        have hsmem : s ∈ rest.dropWhile (fun t => decide (t = s0)) :=
          pctLoop_fst_mem hlen2 hm
        have hslt : s < s0 := hlt s hsmem
        have htakeGT : List.countP (fun x => decide (s < x))
            (rest.takeWhile fun x => decide (x = s0))
              = (rest.takeWhile fun x => decide (x = s0)).length := by
          refine List.countP_eq_length.mpr ?_
          intro a ha
          have := htied_eq a ha
          subst this
          simpa using hslt
        have htakeGE : List.countP (fun x => decide (s ≤ x))
            (rest.takeWhile fun x => decide (x = s0))
              = (rest.takeWhile fun x => decide (x = s0)).length := by
          refine List.countP_eq_length.mpr ?_
          intro a ha
          have := htied_eq a ha
          subst this
          simpa using le_of_lt hslt
        have hGT : countGT (s0 :: rest) s
            = 1 + (rest.takeWhile fun x => decide (x = s0)).length
              + countGT (rest.dropWhile fun x => decide (x = s0)) s := by
          calc countGT (s0 :: rest) s
              = List.countP (fun x => decide (s < x)) rest
                + (if decide (s < s0) = true then 1 else 0) := by
                simp [countGT, List.countP_cons]
            _ = List.countP (fun x => decide (s < x)) rest + 1 := by
                simp [hslt]
            _ = _ := by
                conv_lhs => rw [← hsplit]
                rw [List.countP_append, htakeGT]
                simp only [countGT]
                omega
        have hGE : countGE (s0 :: rest) s
            = 1 + (rest.takeWhile fun x => decide (x = s0)).length
              + countGE (rest.dropWhile fun x => decide (x = s0)) s := by
          calc countGE (s0 :: rest) s
              = List.countP (fun x => decide (s ≤ x)) rest
                + (if decide (s ≤ s0) = true then 1 else 0) := by
                simp [countGE, List.countP_cons]
            _ = List.countP (fun x => decide (s ≤ x)) rest + 1 := by
                simp [le_of_lt hslt]
            _ = _ := by
                conv_lhs => rw [← hsplit]
                rw [List.countP_append, htakeGE]
                simp only [countGE]
                omega
        have e1 : i + countGT (s0 :: rest) s
            = i + 1 + (rest.takeWhile fun x => decide (x = s0)).length
              + countGT (rest.dropWhile fun x => decide (x = s0)) s := by omega
        have e2 : i + countGE (s0 :: rest) s
            = i + 1 + (rest.takeWhile fun x => decide (x = s0)).length
              + countGE (rest.dropWhile fun x => decide (x = s0)) s := by omega
        rw [e1, e2, hrec]

/-- Full characterisation of `assignPercentilesDesc`: the assigned score is
one of the input scores; a singleton group gets 1; otherwise every pair gets
the mid-rank percentile of the tie block `[countGT, countGE)`. -/
lemma assign_spec (scores : List ℚ) (s p : ℚ)
    (h : (s, p) ∈ assignPercentilesDesc scores) :
    s ∈ scores
    ∧ (scores.length = 1 → p = 1)
    ∧ (scores.length ≠ 1 →
        p = midPct scores.length (countGT scores s) (countGE scores s)) := by
  simp only [assignPercentilesDesc] at h
  have hperm : (List.insertionSort (fun a b : ℚ => b ≤ a) scores).Perm scores :=
    List.perm_insertionSort _ scores
  have hlen : (List.insertionSort (fun a b : ℚ => b ≤ a) scores).length
      = scores.length := hperm.length_eq
  by_cases h1 : (List.insertionSort (fun a b : ℚ => b ≤ a) scores).length = 1
  · rw [if_pos h1] at h
    rw [List.mem_map] at h
    obtain ⟨t, ht, hts⟩ := h
    obtain ⟨rfl, rfl⟩ : t = s ∧ (1 : ℚ) = p :=
      ⟨((Prod.mk.injEq _ _ _ _).mp hts).1, ((Prod.mk.injEq _ _ _ _).mp hts).2⟩
    exact ⟨hperm.mem_iff.mp ht, fun _ => rfl, fun hne => absurd (hlen.trans rfl ▸ h1) (by omega)⟩
  · rw [if_neg h1] at h
    have hsort : List.Pairwise (fun a b : ℚ => b ≤ a)
        (List.insertionSort (fun a b : ℚ => b ≤ a) scores) :=
      List.sorted_insertionSort _ scores
    have hpct := pctLoop_pct _ _ 0 _ le_rfl hsort s p h
    have hmem : s ∈ List.insertionSort (fun a b : ℚ => b ≤ a) scores :=
      pctLoop_fst_mem le_rfl h
    have hGT : countGT (List.insertionSort (fun a b : ℚ => b ≤ a) scores) s
        = countGT scores s := hperm.countP_eq _
    have hGE : countGE (List.insertionSort (fun a b : ℚ => b ≤ a) scores) s
        = countGE scores s := hperm.countP_eq _
    rw [zero_add, zero_add, hGT, hGE, hlen] at hpct
    exact ⟨hperm.mem_iff.mp hmem, fun hone => absurd (hlen.trans hone) h1,
      fun _ => hpct⟩

/-- A present score has positive multiplicity, so
`countGT < countGE ≤ length`. -/
lemma countGE_bounds {scores : List ℚ} {s : ℚ} (hs : s ∈ scores) :
    countGT scores s + 1 ≤ countGE scores s
      ∧ countGE scores s ≤ scores.length := by
  have hcount : 0 < scores.count s := List.count_pos_iff.mpr hs
  have := countGE_eq_add scores s
  exact ⟨by omega, List.countP_le_length _⟩

/-- **C1.** For every platform group processed by `scoreItemsComparable`,
after sorting descending by raw score, every maximal tie block at rank
positions `[i, j)` receives the mid-rank percentile
`1 - ((i + j - 1)/2)/(n - 1)` (with `i = countGT`, `j = countGE`, the block's
start and end ranks in the descending order), a singleton group receives
percentile 1, and any two entries with the same raw score receive the same
percentile. -/
theorem C1_tie_aware_midrank_percentile (scores : List ℚ) (s p : ℚ)
    (h : (s, p) ∈ assignPercentilesDesc scores) :
    (scores.length = 1 → p = 1)
    ∧ (2 ≤ scores.length →
        p = 1 - (((countGT scores s : ℚ) + (countGE scores s : ℚ) - 1) / 2)
            / ((scores.length : ℚ) - 1))
    ∧ (∀ q : ℚ, (s, q) ∈ assignPercentilesDesc scores → q = p) := by
  obtain ⟨hmem, h1, h2⟩ := assign_spec scores s p h
  refine ⟨h1, ?_, ?_⟩
  · intro hn
    have hne : scores.length ≠ 1 := by omega
    rw [h2 hne]
    unfold midPct
    ring
  · intro q hq
    obtain ⟨-, h1q, h2q⟩ := assign_spec scores s q hq
    by_cases hone : scores.length = 1
    · rw [h1q hone, h1 hone]
    · rw [h2q hone, h2 hone]

/-- **C1 witness.** In the group `[1, 2, 2]` the tied best entries get the
mid-rank percentile `3/4`, and the formula of C1 evaluates accordingly. -/
theorem C1_tie_aware_midrank_percentile_witness :
    ((2 : ℚ), (3 / 4 : ℚ)) ∈ assignPercentilesDesc [1, 2, 2]
    ∧ (2 ≤ ([1, 2, 2] : List ℚ).length →
        (3 / 4 : ℚ) = 1 - (((countGT [1, 2, 2] 2 : ℚ)
            + (countGE [1, 2, 2] 2 : ℚ) - 1) / 2)
          / ((([1, 2, 2] : List ℚ).length : ℚ) - 1)) :=
  ⟨by norm_num [assignPercentilesDesc, List.insertionSort, List.orderedInsert,
      pctLoop, midPct, countGT, countGE, List.takeWhile, List.dropWhile],
    (C1_tie_aware_midrank_percentile [1, 2, 2] 2 (3 / 4) (by norm_num [assignPercentilesDesc, List.insertionSort, List.orderedInsert,
      pctLoop, midPct, countGT, countGE, List.takeWhile, List.dropWhile])).2.1⟩

/-- **C4 counterexample.** In the group `[1, 1, 0]` (two tied best raw
scores and one worst), the two best items receive percentile `3/4`, not `1`,
and the worst item receives percentile exactly `0` — so percentiles do not
lie in `(0, 1]` and the best item of a group with `n > 1` need not get 1. -/
theorem C4_counterexample :
    assignPercentilesDesc [1, 1, 0] = [(1, 3 / 4), (1, 3 / 4), (0, 0)] := by
  norm_num [assignPercentilesDesc, List.insertionSort, List.orderedInsert,
      pctLoop, midPct, countGT, countGE, List.takeWhile, List.dropWhile]

/-- **C4 (amended).** Percentiles lie in `[0, 1]` (the value 0 is attained,
by a unique worst entry); a singleton group gets exactly 1; and for `n > 1`
the best item receives percentile 1 provided its raw score is strictly
greatest (`countGE = 1`). -/
theorem C4_percentile_range_amended (scores : List ℚ) (s p : ℚ)
    (h : (s, p) ∈ assignPercentilesDesc scores) :
    (0 ≤ p ∧ p ≤ 1)
    ∧ (scores.length = 1 → p = 1)
    ∧ (2 ≤ scores.length → countGE scores s = 1 → p = 1) := by
  obtain ⟨hmem, h1, h2⟩ := assign_spec scores s p h
  obtain ⟨hij, hjn⟩ := countGE_bounds hmem
  have hpos : 1 ≤ scores.length := List.length_pos.mpr (by
    intro hnil
    subst hnil
    simp at hmem)
  by_cases hone : scores.length = 1
  · rw [h1 hone]
    refine ⟨⟨by norm_num, le_refl 1⟩, fun _ => rfl, fun hge _ => rfl⟩
  · have hn2 : 2 ≤ scores.length := by omega
    have hp := h2 hone
    have hdpos : (0 : ℚ) < (scores.length : ℚ) - 1 := by
      have : (2 : ℚ) ≤ (scores.length : ℚ) := by exact_mod_cast hn2
      linarith
    have hiq : (countGT scores s : ℚ) + 1 ≤ (countGE scores s : ℚ) := by
      exact_mod_cast hij
    have hjq : (countGE scores s : ℚ) ≤ (scores.length : ℚ) := by
      exact_mod_cast hjn
    refine ⟨?_, fun hone2 => absurd hone2 hone, ?_⟩
    · rw [hp]
      unfold midPct
      have hnum0 : (0 : ℚ) ≤ ((countGT scores s : ℚ)
          + ((countGE scores s : ℚ) - 1)) / 2 := by
        have : (0 : ℚ) ≤ (countGT scores s : ℚ) := by positivity
        have h1' : (1 : ℚ) ≤ (countGE scores s : ℚ) := by linarith
        linarith
      have hnum1 : ((countGT scores s : ℚ)
          + ((countGE scores s : ℚ) - 1)) / 2 ≤ (scores.length : ℚ) - 1 := by
        rw [div_le_iff₀ (by norm_num : (0:ℚ) < 2)]
        linarith
      constructor
      · have := div_le_one_of_le₀ hnum1 (le_of_lt hdpos)
        linarith
      · have := div_nonneg hnum0 (le_of_lt hdpos)
        linarith
    · intro _ hge
      have hgt0 : countGT scores s = 0 := by omega
      rw [hp, hgt0, hge]
      unfold midPct
      norm_num

/-- **C4 witness.** In the group `[5, 3]` the strictly-best score 5 receives
percentile 1, inside `[0, 1]`. -/
theorem C4_percentile_range_amended_witness :
    (((5 : ℚ), (1 : ℚ)) ∈ assignPercentilesDesc [5, 3])
    ∧ (0 ≤ (1 : ℚ) ∧ (1 : ℚ) ≤ 1)
    ∧ (2 ≤ ([5, 3] : List ℚ).length → countGE [5, 3] 5 = 1 → (1 : ℚ) = 1) :=
  ⟨by norm_num [assignPercentilesDesc, List.insertionSort, List.orderedInsert,
      pctLoop, midPct, countGT, countGE, List.takeWhile, List.dropWhile], (C4_percentile_range_amended [5, 3] 5 1 (by norm_num [assignPercentilesDesc, List.insertionSort, List.orderedInsert,
      pctLoop, midPct, countGT, countGE, List.takeWhile, List.dropWhile])).1,
    (C4_percentile_range_amended [5, 3] 5 1 (by norm_num [assignPercentilesDesc, List.insertionSort, List.orderedInsert,
      pctLoop, midPct, countGT, countGE, List.takeWhile, List.dropWhile])).2.2⟩

/-! ## Lemmas: clamp and round -/

lemma clamp01R_nonneg (x : ℝ) : 0 ≤ clamp01R x := le_max_left 0 _

lemma clamp01R_le_one (x : ℝ) : clamp01R x ≤ 1 :=
  max_le (by norm_num) (min_le_left 1 x)

lemma clamp01R_of_mem {x : ℝ} (h0 : 0 ≤ x) (h1 : x ≤ 1) : clamp01R x = x := by
  unfold clamp01R
  rw [min_eq_right h1, max_eq_right h0]

lemma clamp01R_of_one_le {x : ℝ} (h : 1 ≤ x) : clamp01R x = 1 := by
  unfold clamp01R
  rw [min_eq_left h]
  exact max_eq_right (by norm_num)

lemma round_bounds {y : ℝ} (h0 : 0 ≤ y) (h1 : y ≤ 1000) :
    0 ≤ round y ∧ round y ≤ 1000 := by
  rw [round_eq]
  constructor
  · exact Int.le_floor.mpr (by push_cast; linarith)
  · have : (⌊y + 1 / 2⌋ : ℤ) < 1001 := Int.floor_lt.mpr (by push_cast; linarith)
    omega

/-- **C3.** Every comparable `trendScore` that `scoreItemsComparable` writes
and every `topicScore` of a record produced by `buildTrendTopics` is an
integer in `[0, 1000]`: both are `Math.round(1000 * clamp01(...))`, and this
holds for all real component values whatsoever — in particular for the
percandidate values the pipeline feeds in. -/
theorem C3_scores_in_range (pct f gt ys ns fs cs sp : ℝ) :
    (0 ≤ trendScoreOf pct f gt ∧ trendScoreOf pct f gt ≤ 1000)
    ∧ (0 ≤ topicScoreOf ys ns fs cs sp ∧ topicScoreOf ys ns fs cs sp ≤ 1000) := by
  constructor
  · unfold trendScoreOf
    refine round_bounds ?_ ?_
    · have := clamp01R_nonneg (0.60 * pct + 0.25 * f + 0.15 * clamp01R gt)
      linarith
    · have := clamp01R_le_one (0.60 * pct + 0.25 * f + 0.15 * clamp01R gt)
      linarith
  · unfold topicScoreOf
    refine round_bounds ?_ ?_
    · have := clamp01R_nonneg (0.40 * ys + 0.25 * ns + 0.20 * fs + 0.15 * cs
        - 0.25 * sp)
      linarith
    · have := clamp01R_le_one (0.40 * ys + 0.25 * ns + 0.20 * fs + 0.15 * cs
        - 0.25 * sp)
      linarith

/-! ## Lemmas: the saturation penalty curve -/

lemma log21_pos : (0 : ℝ) < Real.log 21 := Real.log_pos (by norm_num)

/-- Between 1 and 21 items the clamp is inactive: the penalty is the raw
log ratio. -/
lemma saturationPenaltyOf_eq_ratio {s : ℝ} (h1 : 1 ≤ s) (h21 : s ≤ 21) :
    saturationPenaltyOf s = Real.log s / Real.log 21 := by
  have hle : Real.log s ≤ Real.log 21 := Real.log_le_log (by linarith) h21
  have hsp : (0 : ℝ) ≤ Real.log s := Real.log_nonneg h1
  unfold saturationPenaltyOf
  have e1 : (1 : ℝ) + (s - 1) = s := by ring
  have e2 : (1 : ℝ) + 20 = 21 := by norm_num
  rw [e1, e2]
  exact clamp01R_of_mem (div_nonneg hsp log21_pos.le)
    ((div_le_one log21_pos).mpr hle)

/-- **C5 counterexample.** The code's own comment (copied into the spec)
claims the penalty is ≈0.25 at 5 items and ≈0.6 at 12 items; in fact
`log(5)/log(21) > 0.4` and `log(12)/log(21) > 0.7`, so neither approximation
is anywhere near the computed value. -/
theorem C5_counterexample :
    (2 / 5 : ℝ) < saturationPenaltyOf 5
    ∧ (7 / 10 : ℝ) < saturationPenaltyOf 12 := by
  constructor
  · rw [saturationPenaltyOf_eq_ratio (by norm_num) (by norm_num)]
    rw [lt_div_iff₀ log21_pos]
    have key : Real.log (21 ^ 2) < Real.log (5 ^ 5) :=
      Real.log_lt_log (by positivity) (by norm_num)
    rw [Real.log_pow, Real.log_pow] at key
    push_cast at key
    linarith
  · rw [saturationPenaltyOf_eq_ratio (by norm_num) (by norm_num)]
    rw [lt_div_iff₀ log21_pos]
    have key : Real.log (21 ^ 7) < Real.log (12 ^ 10) :=
      Real.log_lt_log (by positivity) (by norm_num)
    rw [Real.log_pow, Real.log_pow] at key
    push_cast at key
    linarith

/-- **C5 (amended).** Every produced record's `saturationPenalty` is
`clamp01(log1p(saturation48h − 1)/log1p(20))` with `saturation48h` the
cluster size; the curve is exactly 0 at 1 item, ≈0.53 (in `(1/2, 11/20)`) at
5 items, ≈0.82 (in `(4/5, 17/20)`) at 12 items, and exactly 1 from 21 items
on — not ≈0.25 at 5 and ≈0.6 at 12 as stated. -/
theorem C5_saturation_penalty_amended :
    (∀ c : Cluster, saturationPenaltyRec c
        = clamp01R (Real.log (1 + ((saturation48hOf c : ℝ) - 1))
            / Real.log 21))
    ∧ saturationPenaltyOf 1 = 0
    ∧ ((1 / 2 : ℝ) < saturationPenaltyOf 5 ∧ saturationPenaltyOf 5 < 11 / 20)
    ∧ ((4 / 5 : ℝ) < saturationPenaltyOf 12 ∧ saturationPenaltyOf 12 < 17 / 20)
    ∧ ∀ s : ℝ, 21 ≤ s → saturationPenaltyOf s = 1 := by
  refine ⟨?_, ?_, ⟨?_, ?_⟩, ⟨?_, ?_⟩, ?_⟩
  · intro c
    unfold saturationPenaltyRec saturationPenaltyOf
    norm_num
  · unfold saturationPenaltyOf
    norm_num [Real.log_one, clamp01R, min_def, max_def]
  · rw [saturationPenaltyOf_eq_ratio (by norm_num) (by norm_num),
      lt_div_iff₀ log21_pos]
    have key : Real.log (21 ^ 1) < Real.log (5 ^ 2) :=
      Real.log_lt_log (by positivity) (by norm_num)
    rw [Real.log_pow, Real.log_pow] at key
    push_cast at key
    linarith
  · rw [saturationPenaltyOf_eq_ratio (by norm_num) (by norm_num),
      div_lt_iff₀ log21_pos]
    have key : Real.log (5 ^ 20) < Real.log (21 ^ 11) :=
      Real.log_lt_log (by positivity) (by norm_num)
    rw [Real.log_pow, Real.log_pow] at key
    push_cast at key
    linarith
  · rw [saturationPenaltyOf_eq_ratio (by norm_num) (by norm_num),
      lt_div_iff₀ log21_pos]
    have key : Real.log (21 ^ 4) < Real.log (12 ^ 5) :=
      Real.log_lt_log (by positivity) (by norm_num)
    rw [Real.log_pow, Real.log_pow] at key
    push_cast at key
    linarith
  · rw [saturationPenaltyOf_eq_ratio (by norm_num) (by norm_num),
      div_lt_iff₀ log21_pos]
    have key : Real.log (12 ^ 20) < Real.log (21 ^ 17) :=
      Real.log_lt_log (by positivity) (by norm_num)
    rw [Real.log_pow, Real.log_pow] at key
    push_cast at key
    linarith
  · intro s hs
    have hslog : Real.log 21 ≤ Real.log s := Real.log_le_log (by norm_num) hs
    unfold saturationPenaltyOf
    have e1 : (1 : ℝ) + (s - 1) = s := by ring
    have e2 : (1 : ℝ) + 20 = 21 := by norm_num
    rw [e1, e2]
    exact clamp01R_of_one_le ((one_le_div log21_pos).mpr hslog)

/-- **C5 witness.** A 25-item cluster is past the knee: its penalty is
exactly 1. -/
theorem C5_saturation_penalty_amended_witness :
    (21 : ℝ) ≤ 25 ∧ saturationPenaltyOf 25 = 1 :=
  ⟨by norm_num, C5_saturation_penalty_amended.2.2.2.2 25 (by norm_num)⟩

/-! ## Lemmas: the video raw score and the collector's velocity metric -/

/-- **C9 (amended).** For video items the raw score is
`clamp01(0.85·(0.55·logComp(velocity) + 0.30·logComp(likes + 2·comments) +
0.15·logComp(views)) + 0.15·freshness(24h/72h))` where `velocity` is the
collector's metric — which `fetchYouTubeItems` sets to `likes + comments`
(an explicit placeholder), not to `views / max(1, ageHours)`. -/
theorem C9_video_raw_score_amended (ageHrs : Option ℝ)
    (views likes comments : ℝ) :
    rawScoreYoutube ageHrs (collectorMetrics views likes comments)
      = clamp01R (0.85 * (0.55 * logComp (likes + comments) 50000
          + 0.30 * logComp (likes + 2 * comments) 200000
          + 0.15 * logComp views 5000000)
        + 0.15 * freshness01R ageHrs 24 72) := rfl

/-- **C9 counterexample.** A video item with 50000 views, no likes, no
comments, `metrics.ageHours = 1` and an unparseable `publishedAt`: under the
claimed formula the view-velocity term is `logComp(50000/1) = 1`, while the
code reads the collector's `velocity = likes + comments = 0`, so the code's
raw score is strictly below the claimed one. -/
theorem C9_counterexample :
    rawScoreYoutube none (collectorMetrics 50000 0 0)
      < specRawScoreVideo none 1 50000 0 0 := by
  have hL1 : (0 : ℝ) < Real.log 50001 := Real.log_pos (by norm_num)
  have hL2 : (0 : ℝ) < Real.log 5000001 := Real.log_pos (by norm_num)
  have hle : Real.log 50001 ≤ Real.log 5000001 :=
    Real.log_le_log (by norm_num) (by norm_num)
  have hw0 : (0 : ℝ) ≤ Real.log 50001 / Real.log 5000001 :=
    div_nonneg hL1.le hL2.le
  have hw1 : Real.log 50001 / Real.log 5000001 ≤ 1 := (div_le_one hL2).mpr hle
  have hone : Real.log 50001 / Real.log 50001 = 1 := div_self (ne_of_gt hL1)
  have ezero : ∀ cap : ℝ, logComp 0 cap = 0 := by
    intro cap
    unfold logComp clamp01R
    norm_num [Real.log_one]
  have eviews : logComp 50000 5000000
      = Real.log 50001 / Real.log 5000001 := by
    unfold logComp
    norm_num
    exact clamp01R_of_mem hw0 hw1
  have evel : logComp (50000 : ℝ) 50000 = 1 := by
    unfold logComp
    norm_num [hone]
    exact clamp01R_of_one_le le_rfl
  unfold rawScoreYoutube specRawScoreVideo collectorMetrics
  simp only
  norm_num [ezero, eviews, evel, freshness01R]
  rw [clamp01R_of_mem (by nlinarith) (by nlinarith),
    clamp01R_of_mem (by nlinarith) (by nlinarith)]
  nlinarith

/-! ## Lemmas: the greedy clustering scan -/

lemma jaccard_nonneg (a b : Finset String) : 0 ≤ jaccard a b := by
  simp only [jaccard]
  split_ifs
  · exact le_refl 0
  · positivity

lemma le_foldl_max : ∀ (l : List ℚ) (b : ℚ), b ≤ l.foldl max b := by
  intro l
  induction l with
  | nil => intro b; exact le_refl b
  | cons x l ih => intro b; exact le_trans (le_max_left b x) (ih (max b x))

lemma maxSim_nonneg (sig : Finset String) (clusters : List Cluster) :
    0 ≤ maxSim sig clusters := le_foldl_max _ 0

/-- Invariant of the candidate scan: the running best similarity accumulates
the maximum, and whenever it improved on the initial state the recorded index
is the first index attaining the final maximum. -/
lemma scanBestAux_spec (sig : Finset String) :
    ∀ (cs : List Cluster) (i : ℕ) (b : ℤ × ℚ),
      (scanBestAux sig cs i b).2
          = (cs.map (fun c => jaccard sig c.signature)).foldl max b.2
      ∧ (scanBestAux sig cs i b = b
        ∨ (b.2 < (scanBestAux sig cs i b).2
          ∧ ∃ (k : ℕ) (c : Cluster), cs[k]? = some c
              ∧ (scanBestAux sig cs i b).1 = (i : ℤ) + (k : ℤ)
              ∧ jaccard sig c.signature = (scanBestAux sig cs i b).2
              ∧ ∀ (k2 : ℕ) (c2 : Cluster), k2 < k → cs[k2]? = some c2 →
                  jaccard sig c2.signature < (scanBestAux sig cs i b).2)) := by
  intro cs
  induction cs with
  | nil => intro i b; exact ⟨rfl, Or.inl rfl⟩
  | cons c cs ih =>
    intro i b
    by_cases hsim : b.2 < jaccard sig c.signature
    · have heq : scanBestAux sig (c :: cs) i b
          = scanBestAux sig cs (i + 1) ((i : ℤ), jaccard sig c.signature) := by
        simp only [scanBestAux, if_pos hsim]
      obtain ⟨ih1, ih2⟩ := ih (i + 1) ((i : ℤ), jaccard sig c.signature)
      have hfold : ((c :: cs).map
            (fun c => jaccard sig c.signature)).foldl max b.2
          = (cs.map (fun c => jaccard sig c.signature)).foldl max
              (jaccard sig c.signature) := by
        simp [List.foldl_cons, max_eq_right hsim.le]
      refine ⟨by rw [heq, ih1, hfold], Or.inr ?_⟩
      rcases ih2 with heqb | ⟨hlt, k, d, hd, h1, h2, h3⟩
      · rw [heq, heqb]
        refine ⟨hsim, 0, c, List.getElem?_cons_zero, by simp, rfl, ?_⟩
        intro k2 c2 hk2 _
        exact absurd hk2 (Nat.not_lt_zero k2)
      · rw [heq]
        have hjlt : jaccard sig c.signature
            < (scanBestAux sig cs (i + 1)
                ((i : ℤ), jaccard sig c.signature)).2 := hlt
        refine ⟨lt_trans hsim hjlt, k + 1, d,
          by rw [List.getElem?_cons_succ]; exact hd,
          by rw [h1]; push_cast; ring, h2, ?_⟩
        intro k2 c2 hk2 hc2
        match k2, hk2, hc2 with
        | 0, _, hc2 =>
          rw [List.getElem?_cons_zero, Option.some.injEq] at hc2
          rw [← hc2]
          exact hjlt
        | k2 + 1, hk2, hc2 =>
          rw [List.getElem?_cons_succ] at hc2
          exact h3 k2 c2 (Nat.succ_lt_succ_iff.mp hk2) hc2
    · have heq : scanBestAux sig (c :: cs) i b = scanBestAux sig cs (i + 1) b := by
        simp only [scanBestAux, if_neg hsim]
      obtain ⟨ih1, ih2⟩ := ih (i + 1) b
      have hfold : ((c :: cs).map
            (fun c => jaccard sig c.signature)).foldl max b.2
          = (cs.map (fun c => jaccard sig c.signature)).foldl max b.2 := by
        simp [List.foldl_cons, max_eq_left (not_lt.mp hsim)]
      refine ⟨by rw [heq, ih1, hfold], ?_⟩
      rcases ih2 with heqb | ⟨hlt, k, d, hd, h1, h2, h3⟩
      · exact Or.inl (by rw [heq, heqb])
      · refine Or.inr ?_
        rw [heq]
        refine ⟨hlt, k + 1, d,
          by rw [List.getElem?_cons_succ]; exact hd,
          by rw [h1]; push_cast; ring, h2, ?_⟩
        intro k2 c2 hk2 hc2
        match k2, hk2, hc2 with
        | 0, _, hc2 =>
          rw [List.getElem?_cons_zero, Option.some.injEq] at hc2
          rw [← hc2]
          exact lt_of_le_of_lt (not_lt.mp hsim) hlt
        | k2 + 1, hk2, hc2 =>
          rw [List.getElem?_cons_succ] at hc2
          exact h3 k2 c2 (Nat.succ_lt_succ_iff.mp hk2) hc2

/-- The scan from the initial state `(-1, 0)`: the best similarity is the
maximum (0 when there are no clusters or no overlap, in which case the index
stays -1), and when positive the index is the first argmax. -/
lemma scanBest_spec (sig : Finset String) (clusters : List Cluster) :
    (scanBest sig clusters).2 = maxSim sig clusters
    ∧ ((scanBest sig clusters).2 = 0 → (scanBest sig clusters).1 = -1)
    ∧ (0 < (scanBest sig clusters).2 →
        ∃ (k : ℕ) (c : Cluster), clusters[k]? = some c
          ∧ (scanBest sig clusters).1 = (k : ℤ)
          ∧ jaccard sig c.signature = (scanBest sig clusters).2
          ∧ ∀ (k2 : ℕ) (c2 : Cluster), k2 < k → clusters[k2]? = some c2 →
              jaccard sig c2.signature < (scanBest sig clusters).2) := by
  obtain ⟨h1, h2⟩ := scanBestAux_spec sig clusters 0 (-1, 0)
  unfold scanBest
  refine ⟨h1, ?_, ?_⟩
  · intro hz
    rcases h2 with heq | ⟨hlt, -⟩
    · rw [heq]
    · rw [hz] at hlt
      exact absurd hlt (by norm_num)
  · intro hpos
    rcases h2 with heq | ⟨-, k, d, hd, ha, hb, hc⟩
    · rw [heq] at hpos
      norm_num at hpos
    · exact ⟨k, d, hd, by rw [ha]; ring, hb, hc⟩

lemma updateAt_getElem (f : Cluster → Cluster) :
    ∀ (n : ℕ) (cs : List Cluster) (j : ℕ),
      (updateAt n f cs)[j]? = if j = n then (cs[j]?).map f else cs[j]? := by
  intro n cs
  induction cs generalizing n with
  | nil =>
    intro j
    simp [updateAt]
  | cons c cs ih =>
    intro j
    cases n with
    | zero =>
      cases j with
      | zero => simp [updateAt]
      | succ j => simp [updateAt]
    | succ n =>
      cases j with
      | zero => simp [updateAt]
      | succ j =>
        simp only [updateAt, List.getElem?_cons_succ, ih n j]
        by_cases hjn : j = n
        · simp [hjn]
        · simp [hjn]

lemma updateAt_length (f : Cluster → Cluster) :
    ∀ (n : ℕ) (cs : List Cluster), (updateAt n f cs).length = cs.length := by
  intro n cs
  induction cs generalizing n with
  | nil => cases n <;> rfl
  | cons c cs ih =>
    cases n with
    | zero => rfl
    | succ n => simp [updateAt, ih n]

/-- **C2 (amended).** One iteration of the clustering loop, for the item
being processed against the clusters built so far: the similarity maximum is
never negative; if it meets the threshold *and is positive*, the item joins
the first cluster attaining the maximum (strictly earlier clusters have
strictly smaller similarity — first-wins tie policy); if it misses the
threshold or every similarity is zero, a new singleton cluster is appended.
(The run is `clusterFold`, the fold of this step over the items in order.
The claim's plain "iff highest similarity ≥ threshold" fails only in the
degenerate case `maxSim = 0 ≤ threshold ≤ 0`, rejected by the scan's strict
`sim > bestSim` comparison against the initial best of 0; for any positive
threshold, such as the default 0.55, this is exactly the claimed iff.) -/
theorem C2_cluster_assignment_amended (thr : ℚ) (clusters : List Cluster)
    (it : PItem) :
    0 ≤ maxSim it.sig clusters
    ∧ ((thr ≤ maxSim it.sig clusters ∧ 0 < maxSim it.sig clusters) →
        ∃ (k : ℕ) (c : Cluster), clusters[k]? = some c
          ∧ jaccard it.sig c.signature = maxSim it.sig clusters
          ∧ (∀ (k2 : ℕ) (c2 : Cluster), k2 < k → clusters[k2]? = some c2 →
              jaccard it.sig c2.signature < maxSim it.sig clusters)
          ∧ stepCluster thr clusters it = updateAt k (joinCluster it) clusters)
    ∧ ((maxSim it.sig clusters < thr ∨ maxSim it.sig clusters = 0) →
        stepCluster thr clusters it
          = clusters ++ [{ items := [it], signature := it.sig }]) := by
  obtain ⟨hs1, hs2, hs3⟩ := scanBest_spec it.sig clusters
  refine ⟨maxSim_nonneg _ _, ?_, ?_⟩
  · rintro ⟨hthr, hpos⟩
    rw [← hs1] at hpos
    obtain ⟨k, c, hc, ha, hb, hcc⟩ := hs3 hpos
    refine ⟨k, c, hc, by rw [hb, hs1], ?_, ?_⟩
    · intro k2 c2 hk2 hc2
      have := hcc k2 c2 hk2 hc2
      rwa [hs1] at this
    · have hcond : 0 ≤ (scanBest it.sig clusters).1
          ∧ thr ≤ (scanBest it.sig clusters).2 := by
        constructor
        · rw [ha]
          exact Int.natCast_nonneg k
        · rw [hs1]
          exact hthr
      simp only [stepCluster, if_pos hcond]
      rw [ha, Int.toNat_natCast]
  · intro h
    have hneg : ¬ (0 ≤ (scanBest it.sig clusters).1
        ∧ thr ≤ (scanBest it.sig clusters).2) := by
      rintro ⟨hc1, hc2⟩
      rcases h with h | h
      · rw [hs1] at hc2
        exact absurd (lt_of_le_of_lt hc2 h) (lt_irrefl thr)
      · have hm1 : (scanBest it.sig clusters).1 = -1 := hs2 (hs1.trans h)
        rw [hm1] at hc1
        norm_num at hc1
    simp only [stepCluster, if_neg hneg]

/-- **C2 witness.** One existing cluster with signature `{"a","b"}`, an item
with signature `{"a","b","c"}`, threshold 1/2: the maximum similarity is
`2/3 ≥ 1/2`, so the step joins the (first) maximising cluster. -/
theorem C2_cluster_assignment_amended_witness :
    ((1 / 2 : ℚ) ≤ maxSim ({"a", "b", "c"} : Finset String)
        [⟨[], {"a", "b"}⟩]
      ∧ (0 : ℚ) < maxSim ({"a", "b", "c"} : Finset String)
          [⟨[], {"a", "b"}⟩])
    ∧ ∃ (k : ℕ) (c : Cluster),
        ([⟨[], {"a", "b"}⟩] : List Cluster)[k]? = some c
        ∧ jaccard ({"a", "b", "c"} : Finset String) c.signature
            = maxSim ({"a", "b", "c"} : Finset String) [⟨[], {"a", "b"}⟩]
        ∧ (∀ (k2 : ℕ) (c2 : Cluster), k2 < k →
            ([⟨[], {"a", "b"}⟩] : List Cluster)[k2]? = some c2 →
              jaccard ({"a", "b", "c"} : Finset String) c2.signature
                < maxSim ({"a", "b", "c"} : Finset String) [⟨[], {"a", "b"}⟩])
        ∧ stepCluster (1 / 2) [⟨[], {"a", "b"}⟩]
              ⟨⟨"youtube", []⟩, [], {"a", "b", "c"}⟩
            = updateAt k (joinCluster ⟨⟨"youtube", []⟩, [], {"a", "b", "c"}⟩)
                [⟨[], {"a", "b"}⟩] := by
  have hj : jaccard ({"a", "b", "c"} : Finset String) {"a", "b"} = 2 / 3 := by
    have h1 : (({"a", "b", "c"} : Finset String) ∩ {"a", "b"}).card = 2 := by
      decide
    have h2 : ({"a", "b", "c"} : Finset String).card = 3 := by decide
    have h3 : ({"a", "b"} : Finset String).card = 2 := by decide
    simp only [jaccard, h1, h2, h3]
    norm_num
  have hmax : maxSim ({"a", "b", "c"} : Finset String)
      ([⟨[], {"a", "b"}⟩] : List Cluster) = 2 / 3 := by
    simp only [maxSim, List.map, List.foldl, hj]
    norm_num [max_def]
  have hhyp : ((1 / 2 : ℚ) ≤ maxSim ({"a", "b", "c"} : Finset String)
        ([⟨[], {"a", "b"}⟩] : List Cluster)
      ∧ (0 : ℚ) < maxSim ({"a", "b", "c"} : Finset String)
          ([⟨[], {"a", "b"}⟩] : List Cluster)) := by
    rw [hmax]
    norm_num
  exact ⟨hhyp,
    (C2_cluster_assignment_amended (1 / 2) [⟨[], {"a", "b"}⟩]
      ⟨⟨"youtube", []⟩, [], {"a", "b", "c"}⟩).2.1 hhyp⟩

/-- **C2 counterexample.** With `similarityThreshold = 0` (an accepted
configuration value), one existing cluster with signature `{"a"}` and an
item with disjoint signature `{"b"}`: the highest similarity is `0 ≥ 0`, so
the claimed iff demands assignment to the existing cluster, but the code's
strict `sim > bestSim` scan leaves `bestIdx = -1` and a new singleton
cluster is appended instead. -/
theorem C2_counterexample :
    (0 : ℚ) ≤ maxSim ({"b"} : Finset String) [⟨[], {"a"}⟩]
    ∧ stepCluster 0 [⟨[], {"a"}⟩] ⟨⟨"youtube", []⟩, [], {"b"}⟩
        = [⟨[], {"a"}⟩, ⟨[⟨⟨"youtube", []⟩, [], {"b"}⟩], {"b"}⟩]
    ∧ ([⟨[], {"a"}⟩] : List Cluster).length = 1 := by
  have hj : jaccard ({"b"} : Finset String) {"a"} = 0 := by
    have h1 : (({"b"} : Finset String) ∩ {"a"}).card = 0 := by decide
    have h2 : ({"b"} : Finset String).card = 1 := by decide
    have h3 : ({"a"} : Finset String).card = 1 := by decide
    simp only [jaccard, h1, h2, h3]
    norm_num
  have hmax : maxSim ({"b"} : Finset String)
      ([⟨[], {"a"}⟩] : List Cluster) = 0 := by
    simp only [maxSim, List.map, List.foldl, hj]
    norm_num [max_def]
  refine ⟨by rw [hmax], ?_, rfl⟩
  have hscan : scanBest ({"b"} : Finset String)
      ([⟨[], {"a"}⟩] : List Cluster) = (-1, 0) := by
    simp only [scanBest, scanBestAux, hj]
    norm_num
  simp only [stepCluster, hscan]
  norm_num

/-! ## Lemmas: signature growth across a run -/

/-- An item's prepared signature holds at most 12 tokens:
`topKeywords(tokens, 12)` takes at most 12 entries. -/
lemma prepareItem_sig_card_le (it : TItem) : (prepareItem it).sig.card ≤ 12 := by
  unfold prepareItem
  refine le_trans (List.toFinset_card_le _) ?_
  unfold topKeywords
  rw [List.length_map, List.length_take]
  exact min_le_left _ _

/-- One clustering step leaves every existing cluster untouched or replaces
it by the same cluster with the item pushed and the signature unioned. -/
lemma stepCluster_getElem (thr : ℚ) (cs : List Cluster) (it : PItem)
    (j : ℕ) (d : Cluster) (hd : cs[j]? = some d) :
    (stepCluster thr cs it)[j]? = some d
    ∨ (stepCluster thr cs it)[j]? = some (joinCluster it d) := by
  have hlt : j < cs.length := by
    obtain ⟨h, -⟩ := List.getElem?_eq_some.mp hd
    exact h
  simp only [stepCluster]
  split_ifs with hcond
  · rw [updateAt_getElem]
    by_cases hj : j = (scanBest it.sig cs).1.toNat
    · right
      rw [if_pos hj, hd]
      rfl
    · left
      rw [if_neg hj]
      exact hd
  · left
    rw [List.getElem?_append_left hlt]
    exact hd

/-- Folding the clustering step over any item list only grows existing
signatures. -/
lemma clusterFold_sig_mono (thr : ℚ) :
    ∀ (its : List PItem) (init : List Cluster) (i : ℕ) (c : Cluster),
      init[i]? = some c →
      ∃ d : Cluster, (its.foldl (stepCluster thr) init)[i]? = some d
        ∧ c.signature ⊆ d.signature := by
  intro its
  induction its with
  | nil => exact fun init i c hc => ⟨c, hc, subset_refl _⟩
  | cons it its ih =>
    intro init i c hc
    rw [List.foldl_cons]
    rcases stepCluster_getElem thr init it i c hc with h | h
    · exact ih _ i c h
    · obtain ⟨d, hd, hsub⟩ := ih _ i (joinCluster it c) h
      exact ⟨d, hd, subset_trans Finset.subset_union_left hsub⟩

/-- **C7 (amended).** Every cluster signature starts as the joining item's
top-12 keyword set (hence with at most 12 tokens), and each later step
either leaves it unchanged or replaces it by its union with the joining
member's signature — so signatures never lose a token across the run, but
the union is not re-capped at 12 tokens and can exceed that size. -/
theorem C7_signature_growth_amended (thr : ℚ) (init : List Cluster)
    (its : List PItem) (i : ℕ) (c : Cluster) (hc : init[i]? = some c) :
    (∀ it : TItem, (prepareItem it).sig.card ≤ 12)
    ∧ (∀ (cs : List Cluster) (it : PItem) (j : ℕ) (d : Cluster),
        cs[j]? = some d →
          (stepCluster thr cs it)[j]? = some d
          ∨ (stepCluster thr cs it)[j]? = some (joinCluster it d))
    ∧ ∃ d : Cluster, (its.foldl (stepCluster thr) init)[i]? = some d
        ∧ c.signature ⊆ d.signature :=
  ⟨prepareItem_sig_card_le,
    fun cs it j d hd => stepCluster_getElem thr cs it j d hd,
    clusterFold_sig_mono thr its init i c hc⟩

/-- **C7 witness.** A one-cluster state with signature `{"a"}` keeps that
signature through an empty remainder of the run. -/
theorem C7_signature_growth_amended_witness :
    (([⟨[], {"a"}⟩] : List Cluster)[0]? = some ⟨[], {"a"}⟩)
    ∧ ∃ d : Cluster,
        (([] : List PItem).foldl (stepCluster (11 / 20)) [⟨[], {"a"}⟩])[0]?
            = some d
        ∧ (Cluster.mk [] {"a"}).signature ⊆ d.signature :=
  ⟨rfl, (C7_signature_growth_amended (11 / 20) [⟨[], {"a"}⟩] [] 0
    ⟨[], {"a"}⟩ rfl).2.2⟩

/-- The first clustering step always creates a singleton cluster: with no
existing clusters the scan keeps `bestIdx = -1`. -/
lemma stepCluster_nil (thr : ℚ) (it : PItem) :
    stepCluster thr [] it = [⟨[it], it.sig⟩] := by
  simp only [stepCluster, scanBest, scanBestAux]
  norm_num

/-- **C7 counterexample.** At the default threshold 0.55, an item with
12 keywords `a..l` and a second item with 12 keywords `a..i, m..o` (overlap
9, Jaccard `9/15 = 0.6 ≥ 0.55`) cluster together, and the resulting single
cluster's signature has `15 > 12` tokens: signatures are not capped at 12. -/
theorem C7_counterexample :
    ((clusterRun (11 / 20)
        [⟨"youtube", ["a", "b", "c", "d", "e", "f", "g", "h", "i", "j", "k", "l"]⟩,
          ⟨"youtube", ["a", "b", "c", "d", "e", "f", "g", "h", "i", "m", "n", "o"]⟩]).map
      (fun c => c.signature.card)) = [15] := by
  have e1 : topKeywords
      ["a", "b", "c", "d", "e", "f", "g", "h", "i", "j", "k", "l"] 12
      = ["a", "b", "c", "d", "e", "f", "g", "h", "i", "j", "k", "l"] := by
    decide
  have e2 : topKeywords
      ["a", "b", "c", "d", "e", "f", "g", "h", "i", "m", "n", "o"] 12
      = ["a", "b", "c", "d", "e", "f", "g", "h", "i", "m", "n", "o"] := by
    decide
  have hp1 : prepareItem
      ⟨"youtube", ["a", "b", "c", "d", "e", "f", "g", "h", "i", "j", "k", "l"]⟩
      = ⟨⟨"youtube", ["a", "b", "c", "d", "e", "f", "g", "h", "i", "j", "k", "l"]⟩,
          ["a", "b", "c", "d", "e", "f", "g", "h", "i", "j", "k", "l"],
          ["a", "b", "c", "d", "e", "f", "g", "h", "i", "j", "k", "l"].toFinset⟩ := by
    unfold prepareItem
    rw [e1]
  have hp2 : prepareItem
      ⟨"youtube", ["a", "b", "c", "d", "e", "f", "g", "h", "i", "m", "n", "o"]⟩
      = ⟨⟨"youtube", ["a", "b", "c", "d", "e", "f", "g", "h", "i", "m", "n", "o"]⟩,
          ["a", "b", "c", "d", "e", "f", "g", "h", "i", "m", "n", "o"],
          ["a", "b", "c", "d", "e", "f", "g", "h", "i", "m", "n", "o"].toFinset⟩ := by
    unfold prepareItem
    rw [e2]
  have hjac : jaccard
      (["a", "b", "c", "d", "e", "f", "g", "h", "i", "m", "n", "o"].toFinset)
      (["a", "b", "c", "d", "e", "f", "g", "h", "i", "j", "k", "l"].toFinset)
      = 3 / 5 := by
    have h1 : ((["a", "b", "c", "d", "e", "f", "g", "h", "i", "m", "n", "o"].toFinset
        : Finset String)
        ∩ ["a", "b", "c", "d", "e", "f", "g", "h", "i", "j", "k", "l"].toFinset).card
        = 9 := by decide
    have h2 : (["a", "b", "c", "d", "e", "f", "g", "h", "i", "m", "n", "o"].toFinset
        : Finset String).card = 12 := by decide
    have h3 : (["a", "b", "c", "d", "e", "f", "g", "h", "i", "j", "k", "l"].toFinset
        : Finset String).card = 12 := by decide
    simp only [jaccard, h1, h2, h3]
    norm_num
  have hcard : ((["a", "b", "c", "d", "e", "f", "g", "h", "i", "j", "k", "l"].toFinset
      : Finset String)
      ∪ ["a", "b", "c", "d", "e", "f", "g", "h", "i", "m", "n", "o"].toFinset).card
      = 15 := by decide
  show ((List.foldl (stepCluster (11 / 20)) []
      (List.map prepareItem _)).map (fun c => c.signature.card)) = [15]
  rw [List.map_cons, List.map_cons, List.map_nil, hp1, hp2,
    List.foldl_cons, List.foldl_cons, List.foldl_nil, stepCluster_nil]
  have hscan : scanBest
      (["a", "b", "c", "d", "e", "f", "g", "h", "i", "m", "n", "o"].toFinset)
      [⟨[⟨⟨"youtube", ["a", "b", "c", "d", "e", "f", "g", "h", "i", "j", "k", "l"]⟩,
          ["a", "b", "c", "d", "e", "f", "g", "h", "i", "j", "k", "l"],
          ["a", "b", "c", "d", "e", "f", "g", "h", "i", "j", "k", "l"].toFinset⟩],
        ["a", "b", "c", "d", "e", "f", "g", "h", "i", "j", "k", "l"].toFinset⟩]
      = (0, 3 / 5) := by
    simp only [scanBest, scanBestAux, hjac]
    norm_num
  simp only [stepCluster, hscan]
  rw [if_pos (by norm_num)]
  simp only [Int.toNat_zero, updateAt, joinCluster]
  simp only [List.map_cons, List.map_nil]
  rw [hcard]

/-! ## Lemmas: the confirmation score -/

/-- **C6 (amended).** `confirmationScore` is always one of `{0, 1/2, 1}`,
determined by which of the two *recognised* platform categories — `youtube`
and `news` — are present among the cluster's member items: 0 if neither,
1/2 if exactly one, 1 if both.  Items of any other platform (e.g. `reddit`,
`unknown`) contribute nothing, so a cluster made only of such items scores 0
even though one distinct platform category is present in it. -/
theorem C6_confirmation_score_amended (members : List PItem) :
    (confirmationScoreOf members = 0 ∨ confirmationScoreOf members = 1 / 2
      ∨ confirmationScoreOf members = 1)
    ∧ ((members.countP (fun it => platformKey it.base.platform == "youtube") = 0
        ∧ members.countP (fun it => platformKey it.base.platform == "news") = 0)
        → confirmationScoreOf members = 0)
    ∧ ((0 < members.countP (fun it => platformKey it.base.platform == "youtube")
        ∧ members.countP (fun it => platformKey it.base.platform == "news") = 0)
        → confirmationScoreOf members = 1 / 2)
    ∧ ((members.countP (fun it => platformKey it.base.platform == "youtube") = 0
        ∧ 0 < members.countP (fun it => platformKey it.base.platform == "news"))
        → confirmationScoreOf members = 1 / 2)
    ∧ ((0 < members.countP (fun it => platformKey it.base.platform == "youtube")
        ∧ 0 < members.countP (fun it => platformKey it.base.platform == "news"))
        → confirmationScoreOf members = 1) := by
  by_cases hyt : 0 < members.countP
      (fun it => platformKey it.base.platform == "youtube") <;>
    by_cases hnews : 0 < members.countP
      (fun it => platformKey it.base.platform == "news")
  · have hval : confirmationScoreOf members = 1 := by
      simp only [confirmationScoreOf]
      rw [if_pos hyt, if_pos hnews]
      norm_num [clamp01Q, min_def, max_def]
    refine ⟨Or.inr (Or.inr hval), ?_, ?_, ?_, fun _ => hval⟩
    · rintro ⟨h1, -⟩
      omega
    · rintro ⟨-, h2⟩
      omega
    · rintro ⟨h1, -⟩
      omega
  · have hval : confirmationScoreOf members = 1 / 2 := by
      simp only [confirmationScoreOf]
      rw [if_pos hyt, if_neg hnews]
      norm_num [clamp01Q, min_def, max_def]
    refine ⟨Or.inr (Or.inl hval), ?_, fun _ => hval, ?_, ?_⟩
    · rintro ⟨h1, -⟩
      omega
    · rintro ⟨h1, -⟩
      omega
    · rintro ⟨-, h2⟩
      exact absurd h2 hnews
  · have hval : confirmationScoreOf members = 1 / 2 := by
      simp only [confirmationScoreOf]
      rw [if_neg hyt, if_pos hnews]
      norm_num [clamp01Q, min_def, max_def]
    refine ⟨Or.inr (Or.inl hval), ?_, ?_, fun _ => hval, ?_⟩
    · rintro ⟨-, h2⟩
      omega
    · rintro ⟨h1, -⟩
      exact absurd h1 hyt
    · rintro ⟨h1, -⟩
      exact absurd h1 hyt
  · have hval : confirmationScoreOf members = 0 := by
      simp only [confirmationScoreOf]
      rw [if_neg hyt, if_neg hnews]
      norm_num [clamp01Q, min_def, max_def]
    refine ⟨Or.inl hval, fun _ => hval, ?_, ?_, ?_⟩
    · rintro ⟨h1, -⟩
      exact absurd h1 hyt
    · rintro ⟨-, h2⟩
      exact absurd h2 hnews
    · rintro ⟨h1, -⟩
      exact absurd h1 hyt

/-- **C6 witness.** A cluster with one youtube and one news member scores
exactly 1. -/
theorem C6_confirmation_score_amended_witness :
    (0 < ([⟨⟨"youtube", []⟩, [], ∅⟩, ⟨⟨"news", []⟩, [], ∅⟩] : List PItem).countP
        (fun it => platformKey it.base.platform == "youtube")
      ∧ 0 < ([⟨⟨"youtube", []⟩, [], ∅⟩, ⟨⟨"news", []⟩, [], ∅⟩] : List PItem).countP
        (fun it => platformKey it.base.platform == "news"))
    ∧ confirmationScoreOf
        [⟨⟨"youtube", []⟩, [], ∅⟩, ⟨⟨"news", []⟩, [], ∅⟩] = 1 :=
  ⟨by decide,
    (C6_confirmation_score_amended
      [⟨⟨"youtube", []⟩, [], ∅⟩, ⟨⟨"news", []⟩, [], ∅⟩]).2.2.2.2 (by decide)⟩

/-- **C6 counterexample.** A cluster consisting of a single `reddit` item
has exactly one distinct platform category present among its members, but
its confirmation score is 0, not the 0.5 the claim's zero/one/two reading
prescribes. -/
theorem C6_counterexample :
    specDistinctPlatformCount [⟨⟨"reddit", []⟩, [], ∅⟩] = 1
    ∧ confirmationScoreOf [⟨⟨"reddit", []⟩, [], ∅⟩] = 0
    ∧ confirmationScoreOf [⟨⟨"reddit", []⟩, [], ∅⟩] ≠ 1 / 2 := by
  have h1 : ([⟨⟨"reddit", []⟩, [], ∅⟩] : List PItem).countP
      (fun it => platformKey it.base.platform == "youtube") = 0 := by decide
  have h2 : ([⟨⟨"reddit", []⟩, [], ∅⟩] : List PItem).countP
      (fun it => platformKey it.base.platform == "news") = 0 := by decide
  have hval : confirmationScoreOf [⟨⟨"reddit", []⟩, [], ∅⟩] = 0 := by
    simp only [confirmationScoreOf, h1, h2]
    norm_num [clamp01Q, min_def, max_def]
  refine ⟨by decide, hval, ?_⟩
  rw [hval]
  norm_num

/-! ## Lemmas: input validation and the frame property -/

/-- **C8.** `buildTrendTopics` throws (produces an error, no output) exactly
when `trendRunId` is missing (falsy), `projectId` is missing (falsy), or the
`items` argument is not an array; and with valid identifiers an empty items
array is not an error — it yields an empty record list. -/
theorem C8_validation_errors (trendRunId projectId : Option String)
    (items : Option (List TItem)) (thr : ℚ) :
    ((∃ msg, buildTrendTopicsE trendRunId projectId items thr
        = Except.error msg)
      ↔ (jsFalsyStr trendRunId = true ∨ jsFalsyStr projectId = true
          ∨ items = none))
    ∧ (jsFalsyStr trendRunId = false → jsFalsyStr projectId = false →
        buildTrendTopicsE trendRunId projectId (some []) thr
          = Except.ok []) := by
  cases htf : jsFalsyStr trendRunId <;> cases hpf : jsFalsyStr projectId <;>
    cases items <;>
      simp [buildTrendTopicsE, htf, hpf, clusterRun, clusterFold]

/-- **C8 witness.** With both identifiers present, an empty items array
yields `ok []`, and for a missing run id the call errors. -/
theorem C8_validation_errors_witness :
    jsFalsyStr (some "run-1") = false
    ∧ jsFalsyStr (some "proj-1") = false
    ∧ buildTrendTopicsE (some "run-1") (some "proj-1") (some []) (11 / 20)
        = Except.ok []
    ∧ (∃ msg, buildTrendTopicsE none (some "proj-1") (some []) (11 / 20)
        = Except.error msg) :=
  ⟨rfl, rfl,
    (C8_validation_errors (some "run-1") (some "proj-1") (some []) (11 / 20)).2
      rfl rfl,
    (C8_validation_errors none (some "proj-1") (some []) (11 / 20)).1.mpr
      (Or.inl rfl)⟩

/-- The preparation fold only appends fresh objects to the heap. -/
lemma prepareAllH_extends :
    ∀ (addrs : List ℕ) (heap : List HObj) (acc : List ℕ),
      ∃ extra, (addrs.foldl prepAlloc (heap, acc)).1 = heap ++ extra := by
  intro addrs
  induction addrs with
  | nil => exact fun heap acc => ⟨[], by simp⟩
  | cons a addrs ih =>
    intro heap acc
    rw [List.foldl_cons]
    obtain ⟨extra, hex⟩ := ih (prepAlloc (heap, acc) a).1
      (prepAlloc (heap, acc) a).2
    refine ⟨{ heap.getD a defaultHObj with
        derived := some (topKeywords (heap.getD a defaultHObj).tokens 12) }
        :: extra, ?_⟩
    calc (addrs.foldl prepAlloc (prepAlloc (heap, acc) a)).1
        = (prepAlloc (heap, acc) a).1 ++ extra := hex
      _ = _ := by simp [prepAlloc]

/-- **C10.** `buildTrendTopics` never mutates its input: the derived token
and keyword fields are attached to freshly allocated shallow copies, so
after a full run every pre-existing heap object — in particular every input
item — is exactly as before. -/
theorem C10_no_input_mutation (thr : ℚ) (heap : List HObj)
    (itemAddrs : List ℕ) :
    (buildTrendTopicsH thr heap itemAddrs).1.take heap.length = heap
    ∧ ∃ newObjs, (buildTrendTopicsH thr heap itemAddrs).1 = heap ++ newObjs := by
  obtain ⟨extra, hex⟩ := prepareAllH_extends itemAddrs heap []
  have h1 : (buildTrendTopicsH thr heap itemAddrs).1 = heap ++ extra := hex
  rw [h1]
  exact ⟨List.take_left heap extra, extra, rfl⟩

end TrendForge
